import Mathlib

/-!
# Verification of the NTmusic audio engine

Shallow embedding of the sample-processing and control-plane functions of the
NTmusic playback engine (`ntmusic_engine/src/lib.rs`, `vmusic_engine/src/main.rs`,
`ntmusic_core/src/lib.rs`), together with proofs and refutations of the
specification's claims about them.

Modelling conventions:
* `f32`/`f64` samples and thresholds are embedded as `ℚ` (exact arithmetic;
  all refutations below are robust to rounding).
* `u64`/`u32` machine integers are embedded as `ℕ` with explicit `% 2^64`
  reductions where the source wraps.
* Rust `Vec<f32>` buffers are embedded as `List ℚ`.
-/

namespace NTMusic

/-- Rust `f32::clamp(lo, hi)` / `f64::clamp`: `min (max x lo) hi`. -/
def clampQ (x lo hi : ℚ) : ℚ := min (max x lo) hi

/-- Rust `f32::signum` on non-NaN input: `1` for non-negative, `-1` for negative. -/
def rustSignum (x : ℚ) : ℚ := if x < 0 then -1 else 1

/-- Rust `f32::round`: nearest integer, ties rounded away from zero. -/
def rustRound (q : ℚ) : ℤ := if 0 ≤ q then ⌊q + 1/2⌋ else ⌈q - 1/2⌉

/-- `normalize_limiter_threshold` (ntmusic_engine/src/lib.rs:1777):
`value.clamp(0.7, 1.0)`. -/
def normalize_limiter_threshold (value : ℚ) : ℚ := clampQ value (7/10) 1

/-- `soft_limit_sample` (ntmusic_engine/src/lib.rs:2125).  Note: over `ℚ`,
division by zero yields `0`, so at `limit = 1` the knee term `t` becomes `0`;
the IEEE evaluation yields `t = 1` there, but `shaped = limit + (1-limit)*… = 1`
in both cases because the factor `1 - limit` vanishes. -/
def soft_limit_sample (sample threshold : ℚ) : ℚ :=
  let limit := normalize_limiter_threshold threshold
  let a := |sample|
  if a ≤ limit then sample
  else
    let t := min ((a - limit) / (1 - limit)) 1
    let shaped := limit + (1 - limit) * (t + t * t - t * t * t)
    rustSignum sample * shaped

/-- `quantize_to_step` (ntmusic_engine/src/lib.rs:2117). -/
def quantize_to_step (value step : ℚ) : ℚ :=
  if step ≤ 0 then value
  else clampQ ((rustRound (value / step) : ℚ) * step) (-1) 1

/-- `apply_gapless_trim` (ntmusic_engine/src/lib.rs:1645).
`samples[start..end].to_vec()` is `(samples.drop start).take (end - start)`. -/
def apply_gapless_trim (samples : List ℚ) (channels delay padding : ℕ) : List ℚ :=
  if samples = [] then samples
  else
    let ch := max channels 1
    let frame_count := samples.length / ch
    if delay = 0 ∧ padding = 0 then samples
    else
      let start_frame := min delay frame_count
      let end_frame := frame_count - padding
      if end_frame ≤ start_frame then []
      else
        let s := start_frame * ch
        let e := min (end_frame * ch) samples.length
        (samples.drop s).take (e - s)

/-- `should_prefer_soxr` (ntmusic_engine/src/lib.rs:1757). -/
def should_prefer_soxr (resampler_mode quality : String) (soxr_available : Bool) : Bool :=
  if resampler_mode = "soxr" then true
  else if resampler_mode = "rubato" then false
  else if soxr_available = false then false
  else !(quality == "low" || quality == "std")

/-- Backend choice on the `vmusic_engine` load path (vmusic_engine/src/main.rs:1307):
`mode == "soxr" || (mode == "auto" && soxr_available)` — no quality gate. -/
def vmusic_load_prefer_soxr (mode : String) (soxr_available : Bool) : Bool :=
  mode == "soxr" || (mode == "auto" && soxr_available)

/-- The spec's selection rule, written from its words ("prefer the HQ library only
when it is available AND quality ∈ {hq, uhq}"), for comparison with the two
implementations above. -/
def spec_backend_selects_soxr (mode quality : String) (avail : Bool) : Bool :=
  mode == "soxr" || (mode == "auto" && avail && (quality == "hq" || quality == "uhq"))

/-! ## Engine state and control ring -/

/-- `SPECTRUM_FFT_SIZE` (ntmusic_engine/src/lib.rs). -/
def SPECTRUM_FFT_SIZE : ℕ := 2048

/-- The fields of `EngineState` (ntmusic_engine/src/lib.rs) that the playback
callback, the control-ring drain, seek and resampling read or mutate. -/
structure EngineState where
  mode : String
  is_playing : Bool
  is_paused : Bool
  position : ℕ
  data : List ℚ
  channels : ℕ
  sample_rate : ℕ
  volume : ℚ
  limiter_enabled : Bool
  limiter_threshold : ℚ
  duration : ℚ
  buffered_frames : ℕ
  underrun_count : ℕ
  played_frames : ℕ
  last_output_chunk : List ℚ
deriving Repr, DecidableEq

/-- One 16-byte slot of the control shared region: command tag, float value,
two reserved words (ntmusic_core/src/lib.rs, §4.C of the spec). -/
structure ControlSlot where
  cmd : ℕ
  value : ℚ
  res1 : ℕ
  res2 : ℕ
deriving Repr, DecidableEq

/-- The control shared region header (write index, read index, capacity) plus
the slot array. -/
structure ControlRing where
  write : ℕ
  read : ℕ
  capacity : ℕ
  slots : List ControlSlot
deriving Repr, DecidableEq

/-- One command of the drain loop body of `drain_control_commands`
(ntmusic_engine/src/lib.rs:648): tags are `PLAY=1, PAUSE=2, STOP=3, SEEK=4,
VOLUME=5`; unknown tags are ignored.  The SEEK cast
`(value.max(0.0) * sample_rate as f32) as usize` truncates toward zero and
saturates negatives at 0, i.e. `⌊max value 0 · rate⌋` as a natural number. -/
def applyControlCmd (st : EngineState) (cmd : ℕ) (value : ℚ) : EngineState :=
  match cmd with
  | 1 => { st with is_playing := true, is_paused := false }
  | 2 => { st with is_paused := true }
  | 3 =>
      if st.mode = "file" then
        { st with is_playing := false, is_paused := false, position := 0 }
      else
        { st with is_playing := false, is_paused := false }
  | 4 =>
      if st.mode = "file" ∧ 0 < st.sample_rate then
        let new_pos := (⌊max value 0 * (st.sample_rate : ℚ)⌋).toNat
        let max_pos := st.data.length / max st.channels 1
        { st with position := min new_pos max_pos }
      else st
  | 5 => { st with volume := clampQ value 0 1 }
  | _ => st

/-- The drain loop of `drain_control_commands`: `while read != write &&
processed < capacity`, one slot per iteration, read advancing mod capacity.
The fuel argument is `capacity - processed`. -/
def drainGo (slots : List ControlSlot) (write capacity : ℕ) :
    ℕ → ℕ → EngineState → EngineState × ℕ
  | 0, read, st => (st, read)
  | fuel + 1, read, st =>
      if read = write then (st, read)
      else
        let slot := slots.getD read ⟨0, 0, 0, 0⟩
        drainGo slots write capacity fuel ((read + 1) % capacity)
          (applyControlCmd st slot.cmd slot.value)

/-- `drain_control_commands` (ntmusic_engine/src/lib.rs:648): returns the
mutated engine state and the final value stored into the read index. -/
def drain_control_commands (st : EngineState) (ring : ControlRing) :
    EngineState × ℕ :=
  let capacity := max ring.capacity 1
  if ring.read = ring.write then (st, ring.read)
  else drainGo ring.slots ring.write capacity capacity ring.read st

/-- `ControlWriter::push` (ntmusic_core/src/lib.rs:228): reject when
`(write+1) mod capacity == read`, else write the slot (reserved words zeroed)
and advance the write index. -/
def ControlWriter_push (ring : ControlRing) (cmd : ℕ) (value : ℚ) :
    Bool × ControlRing :=
  let capacity := max ring.capacity 1
  let next := (ring.write + 1) % capacity
  if next = ring.read then (false, ring)
  else
    (true, { ring with
              slots := ring.slots.set ring.write ⟨cmd, value, 0, 0⟩,
              write := next })

/-- Number of commands pending between the read and write indices of a ring
of the given capacity (for in-range indices). -/
def pendingCount (read write capacity : ℕ) : ℕ :=
  if read ≤ write then write - read else write + capacity - read

/-- The `n` slots at ring positions `read, read+1, …` taken modulo the
capacity. -/
def sliceFrom (slots : List ControlSlot) (capacity read n : ℕ) : List ControlSlot :=
  (List.range n).map fun i => slots.getD ((read + i) % capacity) ⟨0, 0, 0, 0⟩

/-- The `n` slots of a control ring starting at its read index. -/
def ringSlice (ring : ControlRing) (n : ℕ) : List ControlSlot :=
  sliceFrom ring.slots (max ring.capacity 1) ring.read n

/-- Apply a list of control slots to the engine state in order. -/
def applyCmdList (st : EngineState) (cmds : List ControlSlot) : EngineState :=
  cmds.foldl (fun s c => applyControlCmd s c.cmd c.value) st

/-! ## Output callback -/

/-- Number of samples copied from the file buffer by the file branch of
`fill_output_buffer`: `available = min(start + frame_count·ch, data.len()) - start`. -/
def fileAvailable (st : EngineState) (bufLen : ℕ) : ℕ :=
  let ch := max st.channels 1
  let start := st.position * ch
  min (start + bufLen / ch * ch) st.data.length - start

/-- The mode dispatch of `fill_output_buffer` (ntmusic_engine/src/lib.rs:2381,
identical in vmusic_engine/src/main.rs:1135): fills the raw device buffer and
mutates transport/counters.  `ringData` stands for the samples available from
the SPSC ring consumer in stream/capture mode. -/
def fillBranch (st : EngineState) (bufLen : ℕ) (ringData : List ℚ) :
    EngineState × List ℚ :=
  if st.mode = "file" then
    let ch := max st.channels 1
    let frame_count := bufLen / ch
    let start := st.position * ch
    let available := fileAvailable st bufLen
    let copied := (st.data.drop start).take available
    let out := copied ++ List.replicate (bufLen - available) 0
    let st1 := if available < bufLen then { st with is_playing := false } else st
    ({ st1 with position := st1.position + frame_count }, out)
  else if st.mode = "stream" ∨ st.mode = "capture" then
    let ch := max st.channels 1
    let consumed := min bufLen ringData.length
    let out := ringData.take consumed ++ List.replicate (bufLen - consumed) 0
    ({ st with
        buffered_frames := st.buffered_frames - consumed / ch,
        underrun_count :=
          if consumed < bufLen then st.underrun_count + 1 else st.underrun_count,
        played_frames := st.played_frames + bufLen / ch }, out)
  else
    (st, List.replicate bufLen 0)

/-- The spectrum-mirror downmix at the end of `fill_output_buffer`: the first
`min(frames, 2048)` slots receive the (per-frame averaged) output, every
remaining slot is zeroed, so the previous chunk content never survives. -/
def spectrumMirror (channels : ℕ) (out : List ℚ) : List ℚ :=
  let frames := out.length / channels
  let copy_len := min frames SPECTRUM_FFT_SIZE
  let mixed := (List.range copy_len).map fun frame =>
    if channels = 1 then out.getD frame 0
    else (((List.range channels).map fun ch => out.getD (frame * channels + ch) 0).sum)
           / (channels : ℚ)
  mixed ++ List.replicate (SPECTRUM_FFT_SIZE - copy_len) 0

/-- The tail of `fill_output_buffer` common to all modes: scale by volume,
apply the soft limiter when enabled, refresh the spectrum mirror. -/
def postProcess (st : EngineState) (out : List ℚ) : EngineState × List ℚ :=
  let out1 := out.map (· * st.volume)
  let out2 :=
    if st.limiter_enabled then out1.map (soft_limit_sample · st.limiter_threshold)
    else out1
  ({ st with last_output_chunk := spectrumMirror (max st.channels 1) out2 }, out2)

/-- `fill_output_buffer`: drain the control ring when the shared region is
present, early-return a zeroed buffer when not playing or paused, otherwise
dispatch on the mode and post-process. -/
def fill_output_buffer (st : EngineState) (control : Option ControlRing)
    (bufLen : ℕ) (ringData : List ℚ) : EngineState × List ℚ :=
  let st0 := match control with
             | some ring => (drain_control_commands st ring).1
             | none => st
  if st0.is_playing = false ∨ st0.is_paused = true then
    (st0, List.replicate bufLen 0)
  else
    let r := fillBranch st0 bufLen ringData
    postProcess r.1 r.2

/-! ## Seek handler and resample-for-output -/

/-- `seek_handler` (ntmusic_engine/src/lib.rs:3203): returns the HTTP status
code (200 or 400) and the resulting engine state.  The cast
`(req.position * sample_rate as f64) as usize` is `⌊req · rate⌋` saturated
at 0 for negative products. -/
def seek_handler (st : EngineState) (reqPosition : ℚ) : ℕ × EngineState :=
  if st.mode ≠ "file" then (400, st)
  else if st.sample_rate = 0 then (400, st)
  else
    let new_pos := (⌊reqPosition * (st.sample_rate : ℚ)⌋).toNat
    if new_pos < st.data.length / max st.channels 1 then
      (200, { st with position := new_pos })
    else (400, st)

/-- The final state update of `resample_for_output`
(ntmusic_engine/src/lib.rs:2040-2098 tail): the resampled buffer itself comes
from the external backend and is passed in as `resampled`; the function
installs it, updates rate and duration, and scales then clamps the position
cursor (`scaled_pos.min(data.len() / channels.max(1))`). -/
def resample_for_output_update (st : EngineState) (resampled : List ℚ)
    (target_rate : ℕ) : EngineState :=
  let scaled_pos :=
    if 0 < st.sample_rate then st.position * target_rate / st.sample_rate else 0
  { st with
      data := resampled,
      sample_rate := target_rate,
      duration :=
        if 0 < target_rate ∧ 0 < st.channels then
          let frames1 : ℕ := resampled.length / st.channels
          (frames1 : ℚ) / (target_rate : ℚ)
        else 0,
      position := min scaled_pos (resampled.length / max st.channels 1) }

/-! ## Dither PRNG and variants -/

/-- The LCG multiplier of `next_uniform` (ntmusic_engine/src/lib.rs:2101). -/
def LCG_A : ℕ := 6364136223846793005

/-- `2^64`, the modulus of the wrapping `u64` seed arithmetic. -/
def U64 : ℕ := 2 ^ 64

/-- One seed update of `next_uniform`:
`seed = seed.wrapping_mul(6364136223846793005).wrapping_add(1)`. -/
def lcg_step (seed : ℕ) : ℕ := (LCG_A * seed + 1) % U64

/-- `next_uniform` (ntmusic_engine/src/lib.rs:2101): advance the seed, then
return `(seed >> 32) as u32 / u32::MAX` together with the new seed. -/
def next_uniform (seed : ℕ) : ℚ × ℕ :=
  let seed1 := lcg_step seed
  let value : ℕ := seed1 / 2 ^ 32
  ((value : ℚ) / 4294967295, seed1)

/-- The per-sample loop of `apply_tpdf_dither`: add `(u1 - u2) * lsb` and
clamp to `[-1, 1]`; two uniform draws per sample. -/
def tpdf_go (lsb : ℚ) : List ℚ → ℕ → List ℚ × ℕ
  | [], seed => ([], seed)
  | x :: rest, seed =>
      let p1 := next_uniform seed
      let p2 := next_uniform p1.2
      let y := clampQ (x + (p1.1 - p2.1) * lsb) (-1) 1
      let r := tpdf_go lsb rest p2.2
      (y :: r.1, r.2)

/-- `apply_tpdf_dither` (ntmusic_engine/src/lib.rs:2107): effective bits are
`bits.clamp(8, 32)`, the LSB is `1 / 2^(bits-1)`. -/
def apply_tpdf_dither (samples : List ℚ) (bits : ℕ) (seed : ℕ) :
    List ℚ × ℕ :=
  let effective_bits := min (max bits 8) 32
  let lsb : ℚ := 1 / ((2 ^ (effective_bits - 1) : ℕ) : ℚ)
  tpdf_go lsb samples seed

/-- `DITHER_SHAPER_ORDER1_COEFF` (ntmusic_engine/src/lib.rs:261). -/
def DITHER_SHAPER_ORDER1_COEFF : ℚ := 1

/-- `DITHER_SHAPER_ORDER2_COEFF1` (ntmusic_engine/src/lib.rs:262). -/
def DITHER_SHAPER_ORDER2_COEFF1 : ℚ := 2

/-- `DITHER_SHAPER_ORDER2_COEFF2` (ntmusic_engine/src/lib.rs:263). -/
def DITHER_SHAPER_ORDER2_COEFF2 : ℚ := -1

/-- `MAX_DITHER_CHANNELS` (ntmusic_engine/src/lib.rs:260). -/
def MAX_DITHER_CHANNELS : ℕ := 8

/-- The per-sample loop of `apply_tpdf_dither_shaped`: error-feedback shaping,
TPDF noise, clamp, quantize to the LSB grid, error history update.  The error
arrays `[f32; 8]` are embedded as functions `ℕ → ℚ` indexed by channel. -/
def tpdf_shaped_go (lsb : ℚ) (channel_count : ℕ) (order : ℕ) :
    List ℚ → ℕ → ℕ → (ℕ → ℚ) → (ℕ → ℚ) → List ℚ × ℕ × (ℕ → ℚ) × (ℕ → ℚ)
  | [], _, seed, e1, e2 => ([], seed, e1, e2)
  | x :: rest, idx, seed, e1, e2 =>
      let ch := idx % channel_count
      let feedback :=
        if order = 1 then DITHER_SHAPER_ORDER1_COEFF * e1 ch
        else DITHER_SHAPER_ORDER2_COEFF1 * e1 ch + DITHER_SHAPER_ORDER2_COEFF2 * e2 ch
      let shaped := x + feedback
      let p1 := next_uniform seed
      let p2 := next_uniform p1.2
      let dithered := clampQ (shaped + (p1.1 - p2.1) * lsb) (-1) 1
      let quantized := quantize_to_step dithered lsb
      let e2n := Function.update e2 ch (e1 ch)
      let e1n := Function.update e1 ch (dithered - quantized)
      let r := tpdf_shaped_go lsb channel_count order rest (idx + 1) p2.2 e1n e2n
      (quantized :: r.1, r.2)

/-- `apply_tpdf_dither_shaped` (ntmusic_engine/src/lib.rs:2136): degrades to
plain TPDF when the channel count exceeds `MAX_DITHER_CHANNELS` or the order
is 0. -/
def apply_tpdf_dither_shaped (samples : List ℚ) (bits channels : ℕ)
    (seed : ℕ) (err1 err2 : ℕ → ℚ) (order : ℕ) :
    List ℚ × ℕ × (ℕ → ℚ) × (ℕ → ℚ) :=
  let effective_bits := min (max bits 8) 32
  let lsb : ℚ := 1 / ((2 ^ (effective_bits - 1) : ℕ) : ℚ)
  let channel_count := max channels 1
  if MAX_DITHER_CHANNELS < channel_count ∨ order = 0 then
    let r := apply_tpdf_dither samples effective_bits seed
    (r.1, r.2, err1, err2)
  else
    tpdf_shaped_go lsb channel_count order samples 0 seed err1 err2

/-- `lcgC k` is the additive accumulation of `k` LCG steps:
`lcg_step^[k] s = (LCG_A^k * s + lcgC k) % 2^64` (proved below). -/
def lcgC : ℕ → ℕ
  | 0 => 0
  | k + 1 => LCG_A * lcgC k + 1

/-- `(LCG_A - 1) / 4`, odd; `LCG_A = 4 * LCG_M1 + 1`. -/
def LCG_M1 : ℕ := 1591034055961698251

/-! ## Concrete states used by counterexamples and witnesses -/

/-- A scenario seed state used by the concrete counterexamples and
witnesses: idle, stopped, empty buffer, limiter disabled.  (It is not a
mirror of `initial_state`: there `limiter_threshold` is 0.98 and
`last_output_chunk` holds 2048 zeros; neither field affects any theorem
below, since every scenario keeps the limiter disabled and the mirror is
rewritten wholesale by each callback.) -/
def baseState : EngineState :=
  { mode := "idle", is_playing := false, is_paused := false, position := 0,
    data := [], channels := 2, sample_rate := 48000, volume := 1,
    limiter_enabled := false, limiter_threshold := 1, duration := 0,
    buffered_frames := 0, underrun_count := 0, played_frames := 0,
    last_output_chunk := [] }

/-- A file-mode state with a one-frame mono buffer, used to drive the
exhausting callback invocation. -/
def exhaustState : EngineState :=
  { baseState with mode := "file", is_playing := true, channels := 1,
                   sample_rate := 10, data := [1/2] }

/-- A second copy of the one-frame state, for the position-overshoot
counterexample. -/
def overshootState : EngineState :=
  { baseState with mode := "file", is_playing := true, channels := 1,
                   sample_rate := 10, data := [3/4] }

/-- A file-mode state with ten frames of stereo audio at rate 10, used by the
seek witness. -/
def seekState : EngineState :=
  { baseState with mode := "file", is_playing := true, sample_rate := 10,
                   data := List.replicate 20 0 }

/-- The scenario state for the control-ring burst: file mode, mid-track. -/
def burstState : EngineState :=
  { baseState with mode := "file", is_playing := true, position := 7,
                   sample_rate := 10, data := List.replicate 20 0 }

/-- The control ring holding the burst `PLAY, VOLUME(0.3), PAUSE, STOP`
(capacity 64, read 0, write 4). -/
def burstRing : ControlRing :=
  { write := 4, read := 0, capacity := 64,
    slots := [⟨1, 0, 0, 0⟩, ⟨5, 3/10, 0, 0⟩, ⟨2, 0, 0, 0⟩, ⟨3, 0, 0, 0⟩] }

/-- A small ring used by the push witness: capacity 4, two free slots. -/
def pushRing : ControlRing :=
  { write := 1, read := 0, capacity := 4,
    slots := [⟨0, 0, 0, 0⟩, ⟨0, 0, 0, 0⟩, ⟨0, 0, 0, 0⟩, ⟨0, 0, 0, 0⟩] }

/-- A full ring: capacity 4, write 3, read 0, so `(write+1) % 4 = read`. -/
def fullRing : ControlRing :=
  { write := 3, read := 0, capacity := 4,
    slots := [⟨0, 0, 0, 0⟩, ⟨0, 0, 0, 0⟩, ⟨0, 0, 0, 0⟩, ⟨0, 0, 0, 0⟩] }

/-! ## C1 — soft limiter -/

theorem normalize_limiter_threshold_id (threshold : ℚ)
    (h1 : 7/10 ≤ threshold) (h2 : threshold ≤ 1) :
    normalize_limiter_threshold threshold = threshold := by
  unfold normalize_limiter_threshold clampQ
  rw [max_eq_left h1, min_eq_left h2]

/-- C1, counterexample: at `x = 0.8`, `threshold = 0.7` the soft-knee output is
`37/45 ≈ 0.8222`, whose absolute value is strictly GREATER than `|x| = 0.8`,
refuting "its absolute value is strictly less than |x|". -/
theorem C1_soft_limiter_counterexample :
    (7/10 : ℚ) ≤ 7/10 ∧ (7/10 : ℚ) ≤ 1 ∧ (7/10 : ℚ) < |(4/5 : ℚ)| ∧
    soft_limit_sample (4/5) (7/10) = 37/45 ∧
    ¬ |soft_limit_sample (4/5) (7/10)| < |(4/5 : ℚ)| := by
  norm_num [soft_limit_sample, normalize_limiter_threshold, clampQ, rustSignum,
    abs_of_nonneg, min_def, max_def]

/-- C1 (amended): for thresholds in `[0.7, 1.0]`, `soft_limit_sample` is the
identity for `|x| ≤ threshold`; for `|x| > threshold` the sign is preserved
and the output magnitude is at most 1, but it only drops strictly below `|x|`
when `|x| > 1` — on the knee `(threshold, 1)` the curve lies above the
identity. -/
theorem C1_soft_limiter_amended (x threshold : ℚ)
    (h1 : 7/10 ≤ threshold) (h2 : threshold ≤ 1) :
    (|x| ≤ threshold → soft_limit_sample x threshold = x) ∧
    (threshold < |x| →
      rustSignum (soft_limit_sample x threshold) = rustSignum x ∧
      |soft_limit_sample x threshold| ≤ 1 ∧
      (1 < |x| → |soft_limit_sample x threshold| < |x|)) := by
  have hn := normalize_limiter_threshold_id threshold h1 h2
  constructor
  · intro h
    simp only [soft_limit_sample, hn]
    rw [if_pos h]
  · intro h
    simp only [soft_limit_sample, hn]
    rw [if_neg (not_le.mpr h)]
    set t := min ((|x| - threshold) / (1 - threshold)) 1 with ht
    have ht1 : t ≤ 1 := min_le_right _ _
    have ht0 : 0 ≤ t := by
      rcases lt_or_eq_of_le h2 with hlt | heq
      · have hd : 0 ≤ (|x| - threshold) / (1 - threshold) :=
          div_nonneg (by linarith) (by linarith)
        exact le_min hd zero_le_one
      · rw [ht]
        subst heq
        norm_num
    set shaped := threshold + (1 - threshold) * (t + t * t - t * t * t) with hsh
    have hth_pos : (0:ℚ) < threshold := by linarith
    have hcurve0 : 0 ≤ t + t * t - t * t * t := by
      nlinarith [mul_nonneg (mul_nonneg ht0 ht0) (sub_nonneg.mpr ht1)]
    have hshaped_lb : threshold ≤ shaped := by
      have hm := mul_nonneg (sub_nonneg.mpr h2) hcurve0
      rw [hsh]
      linarith
    have hshaped_pos : 0 < shaped := lt_of_lt_of_le hth_pos hshaped_lb
    have hshaped_le1 : shaped ≤ 1 := by
      have hm := mul_nonneg (sub_nonneg.mpr h2)
        (mul_nonneg (mul_nonneg (sub_nonneg.mpr ht1) (sub_nonneg.mpr ht1))
          (by linarith : (0:ℚ) ≤ 1 + t))
      nlinarith [hm]
    have habs : |rustSignum x * shaped| = shaped := by
      have h1s : |rustSignum x| = 1 := by
        unfold rustSignum
        split <;> norm_num
      rw [abs_mul, h1s, one_mul, abs_of_pos hshaped_pos]
    refine ⟨?_, ?_, ?_⟩
    · rcases lt_or_ge x 0 with hx | hx
      · have hs : rustSignum x = -1 := if_pos hx
        rw [hs]
        have hneg : (-1 : ℚ) * shaped < 0 := by nlinarith
        exact if_pos hneg
      · have hs : rustSignum x = 1 := if_neg (not_lt.mpr hx)
        rw [hs, one_mul]
        exact if_neg (not_lt.mpr hshaped_pos.le)
    · rw [habs]
      exact hshaped_le1
    · intro hx1
      rw [habs]
      linarith

/-- C1 witness: the amended theorem applied at `x = 1/2` (identity region) and
at `x = 2` (above full scale, where the limit really attenuates). -/
theorem C1_soft_limiter_witness :
    soft_limit_sample (1/2) (7/10) = 1/2 ∧
    |soft_limit_sample 2 (7/10)| < |(2 : ℚ)| := by
  constructor
  · exact (C1_soft_limiter_amended (1/2) (7/10) le_rfl (by norm_num)).1
      (by norm_num [abs_of_nonneg])
  · exact ((C1_soft_limiter_amended 2 (7/10) le_rfl (by norm_num)).2
      (by norm_num [abs_of_nonneg])).2.2 (by norm_num [abs_of_nonneg])

/-! ## C8 — quantize_to_step -/

theorem rustRound_intCast (k : ℤ) : rustRound (k : ℚ) = k := by
  unfold rustRound
  split
  · rw [add_comm, Int.floor_add_int]
    norm_num
  · rw [sub_eq_add_neg, add_comm, Int.ceil_add_int]
    norm_num

/-- C8, counterexample: with `x = 2`, `s = 0.3` the first quantization clamps
`2.1` down to `1`, and re-quantizing `1` yields `0.9 ≠ 1`, refuting
idempotence; and with `s = 0` the function returns `x` unclamped, so
`|quantize_to_step 2 0| = 2 > 1`, refuting the bound. -/
theorem C8_quantize_counterexample :
    quantize_to_step (quantize_to_step 2 (3/10)) (3/10) ≠ quantize_to_step 2 (3/10) ∧
    ¬ |quantize_to_step 2 0| ≤ 1 := by
  have h1 : quantize_to_step 2 (3/10) = 1 := by
    norm_num [quantize_to_step, rustRound, clampQ, min_def, max_def, Int.floor_eq_iff]
  have h2 : quantize_to_step 1 (3/10) = 9/10 := by
    norm_num [quantize_to_step, rustRound, clampQ, min_def, max_def, Int.floor_eq_iff]
  constructor
  · rw [h1, h2]
    norm_num
  · norm_num [quantize_to_step]

/-- C8 (amended): `|quantize_to_step x s| ≤ 1` holds whenever `s > 0` (the
`s ≤ 0` early return can exceed 1); idempotence holds for `s ≤ 0`, and for
`s > 0` whenever the clamp is inactive, i.e. `|round(x/s)·s| ≤ 1` — when the
clamp engages it can map onto a value off the step grid (see the
counterexample). -/
theorem C8_quantize_amended (x s : ℚ) :
    (0 < s → |quantize_to_step x s| ≤ 1) ∧
    (s ≤ 0 → quantize_to_step (quantize_to_step x s) s = quantize_to_step x s) ∧
    (0 < s → |(rustRound (x / s) : ℚ) * s| ≤ 1 →
      quantize_to_step (quantize_to_step x s) s = quantize_to_step x s) := by
  refine ⟨?_, ?_, ?_⟩
  · intro hs
    unfold quantize_to_step clampQ
    rw [if_neg (not_le.mpr hs), abs_le]
    exact ⟨le_min (le_max_right _ _) (by norm_num), min_le_right _ _⟩
  · intro hs
    simp [quantize_to_step, hs]
  · intro hs hbound
    have hq : quantize_to_step x s = (rustRound (x / s) : ℚ) * s := by
      unfold quantize_to_step clampQ
      rw [if_neg (not_le.mpr hs)]
      rw [abs_le] at hbound
      rw [max_eq_left hbound.1, min_eq_left hbound.2]
    rw [hq]
    unfold quantize_to_step clampQ
    rw [if_neg (not_le.mpr hs),
      mul_div_cancel_right₀ _ (ne_of_gt hs), rustRound_intCast]
    rw [abs_le] at hbound
    rw [max_eq_left hbound.1, min_eq_left hbound.2]

/-- C8 witness: the amended theorem applied at `x = 1/2`, `s = 1/4`. -/
theorem C8_quantize_witness :
    |quantize_to_step (1/2) (1/4)| ≤ 1 ∧
    quantize_to_step (quantize_to_step (1/2) (1/4)) (1/4) = quantize_to_step (1/2) (1/4) := by
  refine ⟨(C8_quantize_amended (1/2) (1/4)).1 (by norm_num),
    (C8_quantize_amended (1/2) (1/4)).2.2 (by norm_num) ?_⟩
  norm_num [rustRound, Int.floor_eq_iff, abs_of_nonneg]

/-! ## C5 — gapless trim -/

/-- C5, counterexample: for a sample vector whose length is not a multiple of
the channel count, the `delay = padding = 0` early return hands back all 3
samples, while the claimed formula `max(0, frames - d - p) · channels`
evaluates to `(3/2)·2 = 2`. -/
theorem C5_gapless_counterexample :
    apply_gapless_trim [1, 2, 3] 2 0 0 = ([1, 2, 3] : List ℚ) ∧
    (apply_gapless_trim [1, 2, 3] 2 0 0).length ≠
      (([1, 2, 3] : List ℚ).length / 2 - 0 - 0) * 2 := by
  constructor <;> norm_num [apply_gapless_trim]

/-- C5 (amended): when the sample vector holds whole frames
(`channels ∣ samples.length`, which the decoder guarantees) and
`channels ≥ 1`, the trimmed length is `(frames - delay - padding) · channels`
(natural subtraction playing the role of `max 0`), and trimming with
`delay = padding = 0` is the identity (the identity holds for every input). -/
theorem C5_gapless_trim_amended (samples : List ℚ) (channels delay padding : ℕ)
    (hch : 1 ≤ channels) (hdvd : channels ∣ samples.length) :
    (apply_gapless_trim samples channels delay padding).length
      = (samples.length / channels - delay - padding) * channels ∧
    apply_gapless_trim samples channels 0 0 = samples := by
  have hch1 : max channels 1 = channels := max_eq_left hch
  constructor
  · by_cases hnil : samples = []
    · subst hnil
      simp [apply_gapless_trim]
    · by_cases hdp : delay = 0 ∧ padding = 0
      · obtain ⟨hd0, hp0⟩ := hdp
        subst hd0
        subst hp0
        simp only [apply_gapless_trim, if_neg hnil, hch1]
        rw [if_pos (by trivial), Nat.sub_zero, Nat.sub_zero, Nat.div_mul_cancel hdvd]
      · simp only [apply_gapless_trim, if_neg hnil, hch1, if_neg hdp]
        set f := samples.length / channels with hf
        by_cases hend : f - padding ≤ min delay f
        · rw [if_pos hend]
          have h1 := min_le_left delay f
          have hzero : f - delay - padding = 0 := by omega
          rw [hzero, zero_mul]
          rfl
        · rw [if_neg hend]
          have hdle : delay ≤ f := by
            by_contra hgt
            push_neg at hgt
            rw [min_eq_right (le_of_lt hgt)] at hend
            exact hend (Nat.sub_le f padding)
          rw [min_eq_left hdle]
          have hmul : (f - padding) * channels ≤ samples.length := by
            calc (f - padding) * channels ≤ f * channels :=
                  Nat.mul_le_mul_right _ (Nat.sub_le f padding)
              _ = samples.length := Nat.div_mul_cancel hdvd
          rw [min_eq_left hmul, List.length_take, List.length_drop, ← Nat.sub_mul]
          have hle2 : (f - padding - delay) * channels
              ≤ samples.length - delay * channels := by
            have h3 := Nat.sub_le_sub_right hmul (delay * channels)
            rw [← Nat.sub_mul] at h3
            exact h3
          rw [min_eq_left hle2]
          congr 1
          omega
  · unfold apply_gapless_trim
    by_cases hnil : samples = []
    · rw [if_pos hnil]
    · rw [if_neg hnil]
      simp

/-- C5 witness: the amended theorem at a 2-frame stereo buffer with one frame
of delay trim. -/
theorem C5_gapless_trim_witness :
    (apply_gapless_trim [1, 2, 3, 4] 2 1 0).length = 2 ∧
    apply_gapless_trim [1, 2, 3, 4] 2 0 0 = ([1, 2, 3, 4] : List ℚ) := by
  have h := C5_gapless_trim_amended [1, 2, 3, 4] 2 1 0 (by norm_num) (by norm_num)
  refine ⟨?_, h.2⟩
  rw [h.1]
  rfl

/-! ## C4 — resampler backend selection -/

/-- C4, counterexample: on the `vmusic_engine` load path, `auto` mode with the
HQ library available selects soxr even at quality `low`, while the claimed
rule (and `ntmusic_engine`'s `should_prefer_soxr`) selects the polyphase
backend there. -/
theorem C4_backend_counterexample :
    vmusic_load_prefer_soxr "auto" true = true ∧
    spec_backend_selects_soxr "auto" "low" true = false ∧
    should_prefer_soxr "auto" "low" true = false := by
  refine ⟨rfl, rfl, ?_⟩
  simp [should_prefer_soxr]

/-- C4 (amended): over the normalized mode and quality vocabularies,
`ntmusic_engine`'s `should_prefer_soxr` decides exactly the claimed rule;
the `vmusic_engine` load path instead selects soxr in `auto` mode whenever
the HQ library is available, ignoring the quality tag. -/
theorem C4_backend_amended :
    (∀ mode quality : String, ∀ avail : Bool,
      mode ∈ (["auto", "rubato", "soxr"] : List String) →
      quality ∈ (["low", "std", "hq", "uhq"] : List String) →
      should_prefer_soxr mode quality avail
        = spec_backend_selects_soxr mode quality avail) ∧
    (∀ mode : String, ∀ avail : Bool,
      vmusic_load_prefer_soxr mode avail
        = (mode == "soxr" || (mode == "auto" && avail))) := by
  constructor
  · intro mode quality avail hm hq
    fin_cases hm <;> fin_cases hq <;> cases avail <;>
      simp [should_prefer_soxr, spec_backend_selects_soxr]
  · intro mode avail
    rfl

/-- C4 witness: the equivalence applied at `auto`/`hq`/available. -/
theorem C4_backend_witness :
    should_prefer_soxr "auto" "hq" true = spec_backend_selects_soxr "auto" "hq" true :=
  C4_backend_amended.1 "auto" "hq" true (by simp) (by simp)

/-! ## Callback helper lemmas -/

theorem soft_limit_sample_zero (threshold : ℚ) : soft_limit_sample 0 threshold = 0 := by
  have h : (0:ℚ) ≤ normalize_limiter_threshold threshold := by
    unfold normalize_limiter_threshold clampQ
    exact le_min (le_trans (by norm_num) (le_max_right threshold (7/10))) (by norm_num)
  simp only [soft_limit_sample]
  rw [abs_zero, if_pos h]

theorem map_zero_tail {f : ℚ → ℚ} (hf : f 0 = 0) (l : List ℚ) (n k : ℕ)
    (h : l.drop n = List.replicate k 0) :
    (l.map f).drop n = List.replicate k 0 := by
  rw [← List.map_drop, h, List.map_replicate, hf]

theorem postProcess_fst_fields (st : EngineState) (out : List ℚ) :
    (postProcess st out).1.is_playing = st.is_playing ∧
    (postProcess st out).1.mode = st.mode ∧
    (postProcess st out).1.position = st.position ∧
    (postProcess st out).1.data = st.data ∧
    (postProcess st out).1.channels = st.channels :=
  ⟨rfl, rfl, rfl, rfl, rfl⟩

theorem postProcess_snd_length (st : EngineState) (out : List ℚ) :
    (postProcess st out).2.length = out.length := by
  simp only [postProcess]
  split <;> simp

theorem postProcess_snd_tail (st : EngineState) (out : List ℚ) (n k : ℕ)
    (h : out.drop n = List.replicate k 0) :
    (postProcess st out).2.drop n = List.replicate k 0 := by
  have h1 : (out.map (· * st.volume)).drop n = List.replicate k 0 :=
    map_zero_tail (f := (· * st.volume)) (by simp) out n k h
  simp only [postProcess]
  split
  · exact map_zero_tail (f := fun x => soft_limit_sample x st.limiter_threshold)
      (soft_limit_sample_zero _) _ n k h1
  · exact h1

theorem fileAvailable_le (st : EngineState) (bufLen : ℕ) :
    fileAvailable st bufLen
      ≤ st.data.length - st.position * max st.channels 1 := by
  unfold fileAvailable
  exact Nat.sub_le_sub_right (min_le_right _ _) _

theorem fillBranch_file (st : EngineState) (bufLen : ℕ) (ringData : List ℚ)
    (hmode : st.mode = "file") :
    (fillBranch st bufLen ringData).1.is_playing
        = (if fileAvailable st bufLen < bufLen then false else st.is_playing) ∧
    (fillBranch st bufLen ringData).1.mode = st.mode ∧
    (fillBranch st bufLen ringData).1.position
        = st.position + bufLen / max st.channels 1 ∧
    (fillBranch st bufLen ringData).1.data = st.data ∧
    (fillBranch st bufLen ringData).1.channels = st.channels ∧
    (fillBranch st bufLen ringData).2.length = bufLen ∧
    (fillBranch st bufLen ringData).2.drop (fileAvailable st bufLen)
        = List.replicate (bufLen - fileAvailable st bufLen) 0 := by
  have hcopy : ((st.data.drop (st.position * max st.channels 1)).take
      (fileAvailable st bufLen)).length = fileAvailable st bufLen := by
    rw [List.length_take, List.length_drop]
    exact min_eq_left (fileAvailable_le st bufLen)
  have havle : fileAvailable st bufLen ≤ bufLen := by
    unfold fileAvailable
    have h1 : st.position * max st.channels 1 + bufLen / max st.channels 1 * max st.channels 1
        - st.position * max st.channels 1 ≤ bufLen := by
      have h2 : bufLen / max st.channels 1 * max st.channels 1 ≤ bufLen :=
        Nat.div_mul_le_self bufLen (max st.channels 1)
      omega
    exact le_trans (Nat.sub_le_sub_right (min_le_left _ _) _) h1
  by_cases hb : fileAvailable st bufLen < bufLen
  · simp only [fillBranch]
    rw [if_pos hmode, if_pos hb]
    dsimp only
    refine ⟨?_, rfl, rfl, rfl, rfl, ?_, ?_⟩
    · rw [if_pos hb]
    · rw [List.length_append, List.length_replicate, hcopy]
      omega
    · set cp := (st.data.drop (st.position * max st.channels 1)).take
          (fileAvailable st bufLen) with hcp
      rw [← hcopy, List.drop_left]
  · simp only [fillBranch]
    rw [if_pos hmode, if_neg hb]
    dsimp only
    refine ⟨?_, rfl, rfl, rfl, rfl, ?_, ?_⟩
    · rw [if_neg hb]
    · rw [List.length_append, List.length_replicate, hcopy]
      omega
    · set cp := (st.data.drop (st.position * max st.channels 1)).take
          (fileAvailable st bufLen) with hcp
      rw [← hcopy, List.drop_left]

theorem fill_unfold_playing (st : EngineState) (bufLen : ℕ) (ringData : List ℚ)
    (hplay : st.is_playing = true) (hpause : st.is_paused = false) :
    fill_output_buffer st none bufLen ringData
      = postProcess (fillBranch st bufLen ringData).1
          (fillBranch st bufLen ringData).2 := by
  simp only [fill_output_buffer, hplay, hpause]
  rfl

/-! ## C2 — file-mode buffer exhaustion -/

/-- C2, counterexample: a one-frame mono file buffer driven with a two-sample
device buffer exhausts; the callback clears `is_playing` but the mode stays
`"file"`, refuting the claimed automatic transition to idle (only `stop` and
`stop_capture` set the mode to `"idle"`). -/
theorem C2_exhaustion_counterexample :
    fileAvailable exhaustState 2 < 2 ∧
    (fill_output_buffer exhaustState none 2 []).1.is_playing = false ∧
    (fill_output_buffer exhaustState none 2 []).1.mode ≠ "idle" := by
  have hav : fileAvailable exhaustState 2 < 2 := by
    norm_num [fileAvailable, exhaustState, baseState]
  have hu := fill_unfold_playing exhaustState 2 [] rfl rfl
  have hb := fillBranch_file exhaustState 2 [] rfl
  have hp := postProcess_fst_fields (fillBranch exhaustState 2 []).1
    (fillBranch exhaustState 2 []).2
  refine ⟨hav, ?_, ?_⟩
  · rw [hu, hp.1, hb.1, if_pos hav]
  · rw [hu, hp.2.1, hb.2.1]
    simp [exhaustState, baseState]

/-- C2 (amended): in file mode while playing and unpaused, when fewer samples
remain than the device buffer requests, the callback zeroes the tail of the
buffer and clears `is_playing`; the mode field is NOT changed — it remains
`"file"`, and the idle transition happens only through an explicit stop. -/
theorem C2_exhaustion_amended (st : EngineState) (bufLen : ℕ) (ringData : List ℚ)
    (hmode : st.mode = "file") (hplay : st.is_playing = true)
    (hpause : st.is_paused = false) (hav : fileAvailable st bufLen < bufLen) :
    (fill_output_buffer st none bufLen ringData).1.is_playing = false ∧
    (fill_output_buffer st none bufLen ringData).1.mode = "file" ∧
    (fill_output_buffer st none bufLen ringData).2.length = bufLen ∧
    (fill_output_buffer st none bufLen ringData).2.drop (fileAvailable st bufLen)
      = List.replicate (bufLen - fileAvailable st bufLen) 0 := by
  rw [fill_unfold_playing st bufLen ringData hplay hpause]
  obtain ⟨h1, h2, _, _, _, h6, h7⟩ := fillBranch_file st bufLen ringData hmode
  obtain ⟨p1, p2, _, _, _⟩ := postProcess_fst_fields
    (fillBranch st bufLen ringData).1 (fillBranch st bufLen ringData).2
  refine ⟨?_, ?_, ?_, ?_⟩
  · rw [p1, h1, if_pos hav]
  · rw [p2, h2, hmode]
  · rw [postProcess_snd_length, h6]
  · exact postProcess_snd_tail _ _ _ _ h7

/-- C2 witness: the amended theorem applied to the concrete one-frame state. -/
theorem C2_exhaustion_witness :
    (fill_output_buffer exhaustState none 2 []).1.is_playing = false ∧
    (fill_output_buffer exhaustState none 2 []).2.drop 1 = [0] := by
  have hav : fileAvailable exhaustState 2 < 2 := by
    norm_num [fileAvailable, exhaustState, baseState]
  have h := C2_exhaustion_amended exhaustState 2 [] rfl rfl rfl hav
  have hfa : fileAvailable exhaustState 2 = 1 := by
    norm_num [fileAvailable, exhaustState, baseState]
  refine ⟨h.1, ?_⟩
  have h4 := h.2.2.2
  rw [hfa] at h4
  simpa using h4

/-! ## C3 — position invariant -/

theorem fillBranch_other_fields (st : EngineState) (bufLen : ℕ)
    (ringData : List ℚ) (hmode : st.mode ≠ "file") :
    (fillBranch st bufLen ringData).1.position = st.position ∧
    (fillBranch st bufLen ringData).1.data = st.data ∧
    (fillBranch st bufLen ringData).1.channels = st.channels := by
  simp only [fillBranch]
  rw [if_neg hmode]
  split
  · exact ⟨rfl, rfl, rfl⟩
  · exact ⟨rfl, rfl, rfl⟩

theorem applyControlCmd_preserves (st : EngineState) (cmd : ℕ) (value : ℚ)
    (h : st.position ≤ st.data.length / max st.channels 1) :
    (applyControlCmd st cmd value).position
      ≤ (applyControlCmd st cmd value).data.length
          / max (applyControlCmd st cmd value).channels 1 := by
  rcases cmd with _ | _ | _ | _ | _ | _ | n
  · exact h
  · exact h
  · exact h
  · dsimp only [applyControlCmd]
    split
    · exact Nat.zero_le _
    · exact h
  · dsimp only [applyControlCmd]
    split
    · exact min_le_right _ _
    · exact h
  · exact h
  · exact h

theorem drainGo_preserves (slots : List ControlSlot) (write capacity : ℕ) :
    ∀ (fuel read : ℕ) (st : EngineState),
      st.position ≤ st.data.length / max st.channels 1 →
      (drainGo slots write capacity fuel read st).1.position
        ≤ (drainGo slots write capacity fuel read st).1.data.length
            / max (drainGo slots write capacity fuel read st).1.channels 1 := by
  intro fuel
  induction fuel with
  | zero => intro read st h; exact h
  | succ n ih =>
      intro read st h
      simp only [drainGo]
      split
      · exact h
      · exact ih _ _ (applyControlCmd_preserves st _ _ h)

theorem drain_preserves (st : EngineState) (ring : ControlRing)
    (h : st.position ≤ st.data.length / max st.channels 1) :
    (drain_control_commands st ring).1.position
      ≤ (drain_control_commands st ring).1.data.length
          / max (drain_control_commands st ring).1.channels 1 := by
  simp only [drain_control_commands]
  split
  · exact h
  · exact drainGo_preserves _ _ _ _ _ _ h

theorem seek_preserves (st : EngineState) (req : ℚ)
    (h : st.position ≤ st.data.length / max st.channels 1) :
    (seek_handler st req).2.position
      ≤ (seek_handler st req).2.data.length
          / max (seek_handler st req).2.channels 1 := by
  simp only [seek_handler]
  split_ifs with h1 h2 h3
  · exact h
  · exact h
  · exact le_of_lt h3
  · exact h

theorem resample_update_position (st : EngineState) (resampled : List ℚ)
    (target_rate : ℕ) :
    (resample_for_output_update st resampled target_rate).position
      ≤ (resample_for_output_update st resampled target_rate).data.length
          / max (resample_for_output_update st resampled target_rate).channels 1 := by
  simp only [resample_for_output_update]
  exact min_le_right _ _

theorem fill_position_bound (st : EngineState) (bufLen : ℕ) (ringData : List ℚ)
    (h : st.position ≤ st.data.length / max st.channels 1) :
    (fill_output_buffer st none bufLen ringData).1.position
      ≤ st.data.length / max st.channels 1 + bufLen / max st.channels 1 := by
  simp only [fill_output_buffer]
  split
  · exact le_trans h (Nat.le_add_right _ _)
  · rw [(postProcess_fst_fields _ _).2.2.1]
    by_cases hmode : st.mode = "file"
    · rw [(fillBranch_file st bufLen ringData hmode).2.2.1]
      exact Nat.add_le_add_right h _
    · rw [(fillBranch_other_fields st bufLen ringData hmode).1]
      exact le_trans h (Nat.le_add_right _ _)

theorem fill_position_full (st : EngineState) (bufLen : ℕ) (ringData : List ℚ)
    (h : st.position ≤ st.data.length / max st.channels 1)
    (hfull : ¬ fileAvailable st bufLen < bufLen) :
    (fill_output_buffer st none bufLen ringData).1.position
      ≤ st.data.length / max st.channels 1 := by
  simp only [fill_output_buffer]
  split
  · exact h
  · rw [(postProcess_fst_fields _ _).2.2.1]
    by_cases hmode : st.mode = "file"
    · rw [(fillBranch_file st bufLen ringData hmode).2.2.1]
      push_neg at hfull
      set ch := max st.channels 1 with hch
      have hch0 : 0 < ch := lt_of_lt_of_le Nat.one_pos (le_max_right _ _)
      simp only [fileAvailable, ← hch] at hfull
      set s0 := st.position * ch with hs0def
      set q := bufLen / ch * ch with hqdef
      have hq : q ≤ bufLen := Nat.div_mul_le_self _ _
      have hs0L : s0 ≤ st.data.length := by
        calc s0 = st.position * ch := rfl
          _ ≤ st.data.length / ch * ch := Nat.mul_le_mul_right ch h
          _ ≤ st.data.length := Nat.div_mul_le_self _ _
      have hm1 : min (s0 + q) st.data.length ≤ s0 + q := min_le_left _ _
      have hm2 : min (s0 + q) st.data.length ≤ st.data.length := min_le_right _ _
      have hkey : s0 + q ≤ st.data.length := by omega
      rw [Nat.le_div_iff_mul_le hch0, Nat.add_mul]
      exact hkey
    · rw [(fillBranch_other_fields st bufLen ringData hmode).1]
      exact h

/-- C3, counterexample: starting from a valid state (one-frame mono buffer,
position 0), the exhausting file-mode callback advances the position by the
full requested frame count, leaving `position = 2 > frames = 1` — the
output callback does NOT preserve `position ≤ frames`. -/
theorem C3_position_counterexample :
    overshootState.position
      ≤ overshootState.data.length / max overshootState.channels 1 ∧
    (fill_output_buffer overshootState none 2 []).1.position = 2 ∧
    (fill_output_buffer overshootState none 2 []).1.data = overshootState.data ∧
    (fill_output_buffer overshootState none 2 []).1.channels = overshootState.channels ∧
    ¬ (fill_output_buffer overshootState none 2 []).1.position
        ≤ (fill_output_buffer overshootState none 2 []).1.data.length
            / max (fill_output_buffer overshootState none 2 []).1.channels 1 := by
  have hu := fill_unfold_playing overshootState 2 [] rfl rfl
  have hb := fillBranch_file overshootState 2 [] rfl
  have hp := postProcess_fst_fields (fillBranch overshootState 2 []).1
    (fillBranch overshootState 2 []).2
  have hpos : (fill_output_buffer overshootState none 2 []).1.position = 2 := by
    rw [hu, hp.2.2.1, hb.2.2.1]
    rfl
  have hdata : (fill_output_buffer overshootState none 2 []).1.data
      = overshootState.data := by
    rw [hu, hp.2.2.2.1, hb.2.2.2.1]
  have hchan : (fill_output_buffer overshootState none 2 []).1.channels
      = overshootState.channels := by
    rw [hu, hp.2.2.2.2, hb.2.2.2.2.1]
  refine ⟨by norm_num [overshootState, baseState], hpos, hdata, hchan, ?_⟩
  rw [hpos, hdata, hchan]
  norm_num [overshootState, baseState]

/-- C3 (amended): the control-ring drain (including its SEEK and STOP
commands), the seek handler and the `resample_for_output` state update all
preserve `position ≤ frames = data.len()/channels`; the file-mode output
callback preserves it only when a full device buffer of samples is available,
and on the exhausting invocation overshoots by at most
`frame_count = bufLen/channels`. -/
theorem C3_position_invariant_amended :
    (∀ (st : EngineState) (cmd : ℕ) (value : ℚ),
        st.position ≤ st.data.length / max st.channels 1 →
        (applyControlCmd st cmd value).position
          ≤ (applyControlCmd st cmd value).data.length
              / max (applyControlCmd st cmd value).channels 1) ∧
    (∀ (st : EngineState) (ring : ControlRing),
        st.position ≤ st.data.length / max st.channels 1 →
        (drain_control_commands st ring).1.position
          ≤ (drain_control_commands st ring).1.data.length
              / max (drain_control_commands st ring).1.channels 1) ∧
    (∀ (st : EngineState) (req : ℚ),
        st.position ≤ st.data.length / max st.channels 1 →
        (seek_handler st req).2.position
          ≤ (seek_handler st req).2.data.length
              / max (seek_handler st req).2.channels 1) ∧
    (∀ (st : EngineState) (resampled : List ℚ) (target_rate : ℕ),
        (resample_for_output_update st resampled target_rate).position
          ≤ (resample_for_output_update st resampled target_rate).data.length
              / max (resample_for_output_update st resampled target_rate).channels 1) ∧
    (∀ (st : EngineState) (bufLen : ℕ) (ringData : List ℚ),
        st.position ≤ st.data.length / max st.channels 1 →
        (fill_output_buffer st none bufLen ringData).1.position
          ≤ st.data.length / max st.channels 1 + bufLen / max st.channels 1) ∧
    (∀ (st : EngineState) (bufLen : ℕ) (ringData : List ℚ),
        st.position ≤ st.data.length / max st.channels 1 →
        ¬ fileAvailable st bufLen < bufLen →
        (fill_output_buffer st none bufLen ringData).1.position
          ≤ st.data.length / max st.channels 1) :=
  ⟨applyControlCmd_preserves, drain_preserves, seek_preserves,
   resample_update_position, fill_position_bound, fill_position_full⟩

/-- C3 witness: the seek-handler part of the amended invariant applied to the
concrete ten-frame state. -/
theorem C3_position_witness :
    (seek_handler seekState (1/2)).2.position
      ≤ (seek_handler seekState (1/2)).2.data.length
          / max (seek_handler seekState (1/2)).2.channels 1 :=
  C3_position_invariant_amended.2.2.1 seekState (1/2)
    (by norm_num [seekState, baseState])

/-! ## C9 — seek handler -/

/-- C9 (confirmed): the seek handler returns 400 with the state untouched
whenever the mode is not `"file"`, the sample rate is zero, or the requested
position maps to a frame index at or beyond the end of the buffer; otherwise
it returns 200 and the unique change is the position field. -/
theorem C9_seek_handler (st : EngineState) (req : ℚ) :
    (st.mode ≠ "file" ∨ st.sample_rate = 0 ∨
        st.data.length / max st.channels 1 ≤ (⌊req * (st.sample_rate : ℚ)⌋).toNat →
      seek_handler st req = (400, st)) ∧
    (st.mode = "file" → st.sample_rate ≠ 0 →
      (⌊req * (st.sample_rate : ℚ)⌋).toNat < st.data.length / max st.channels 1 →
      seek_handler st req
        = (200, { st with position := (⌊req * (st.sample_rate : ℚ)⌋).toNat })) := by
  constructor
  · intro h
    simp only [seek_handler]
    rcases h with h | h | h
    · rw [if_pos h]
    · by_cases hm : st.mode ≠ "file"
      · rw [if_pos hm]
      · rw [if_neg hm, if_pos h]
    · by_cases hm : st.mode ≠ "file"
      · rw [if_pos hm]
      · rw [if_neg hm]
        by_cases hr : st.sample_rate = 0
        · rw [if_pos hr]
        · rw [if_neg hr, if_neg (not_lt.mpr h)]
  · intro hm hr hlt
    simp only [seek_handler]
    rw [if_neg (not_not_intro hm), if_neg hr, if_pos hlt]

/-- C9 witness: an in-range seek succeeds and moves only the position; an
out-of-range seek returns 400 and leaves the state unchanged. -/
theorem C9_seek_witness :
    seek_handler seekState (1/2) = (200, { seekState with position := 5 }) ∧
    seek_handler seekState 100 = (400, seekState) := by
  have hfloor : (⌊(1/2 : ℚ) * ((seekState.sample_rate : ℕ) : ℚ)⌋).toNat = 5 := by
    have h5 : ⌊(1/2 : ℚ) * ((seekState.sample_rate : ℕ) : ℚ)⌋ = 5 := by
      norm_num [seekState, baseState]
    rw [h5]
    decide
  constructor
  · have h := (C9_seek_handler seekState (1/2)).2 rfl (by norm_num [seekState, baseState])
      (by rw [hfloor]; norm_num [seekState, baseState])
    rw [h, hfloor]
  · exact (C9_seek_handler seekState 100).1
      (Or.inr (Or.inr (by norm_num [seekState, baseState])))

/-! ## C10 — ControlWriter::push -/

/-- C10 (confirmed): with capacity at least 1, `push` rejects exactly when
`(write+1) mod capacity == read`, leaving the ring untouched; otherwise it
stores the slot with zeroed reserved words at the write index and advances
the write index modulo the capacity, returning true. -/
theorem C10_control_push (ring : ControlRing) (cmd : ℕ) (value : ℚ)
    (hC : 1 ≤ ring.capacity) :
    ((ring.write + 1) % ring.capacity = ring.read →
      ControlWriter_push ring cmd value = (false, ring)) ∧
    ((ring.write + 1) % ring.capacity ≠ ring.read →
      ControlWriter_push ring cmd value
        = (true, { ring with
                    slots := ring.slots.set ring.write ⟨cmd, value, 0, 0⟩,
                    write := (ring.write + 1) % ring.capacity })) := by
  have hmax : max ring.capacity 1 = ring.capacity := max_eq_left hC
  constructor
  · intro h
    simp only [ControlWriter_push, hmax]
    rw [if_pos h]
  · intro h
    simp only [ControlWriter_push, hmax]
    rw [if_neg h]

/-- C10 witness: push into a full ring fails and changes nothing; push into a
ring with free slots succeeds. -/
theorem C10_control_push_witness :
    ControlWriter_push fullRing 1 0 = (false, fullRing) ∧
    (ControlWriter_push pushRing 5 (3/10)).1 = true := by
  constructor
  · exact (C10_control_push fullRing 1 0 (by norm_num [fullRing])).1
      (by norm_num [fullRing])
  · have h := (C10_control_push pushRing 5 (3/10) (by norm_num [pushRing])).2
      (by norm_num [pushRing])
    rw [h]

/-! ## C6 — control-ring drain -/

theorem pendingCount_step (read write capacity : ℕ) (hr : read < capacity)
    (hw : write < capacity) (hne : read ≠ write) :
    pendingCount ((read + 1) % capacity) write capacity
      = pendingCount read write capacity - 1 ∧
    1 ≤ pendingCount read write capacity := by
  unfold pendingCount
  rcases Nat.lt_or_ge (read + 1) capacity with hlt | hge
  · rw [Nat.mod_eq_of_lt hlt]
    split_ifs <;> omega
  · have hcap : read + 1 = capacity := by omega
    rw [hcap, Nat.mod_self]
    split_ifs <;> omega

theorem sliceFrom_succ (slots : List ControlSlot) (capacity read n : ℕ)
    (hr : read < capacity) :
    sliceFrom slots capacity read (n + 1)
      = slots.getD read ⟨0, 0, 0, 0⟩
          :: sliceFrom slots capacity ((read + 1) % capacity) n := by
  unfold sliceFrom
  rw [List.range_succ_eq_map, List.map_cons, List.map_map]
  congr 1
  · rw [Nat.add_zero, Nat.mod_eq_of_lt hr]
  · apply List.map_congr_left
    intro i _
    simp only [Function.comp_apply, Nat.succ_eq_add_one]
    rw [Nat.mod_add_mod]
    have harg : read + 1 + i = read + (i + 1) := by omega
    rw [harg]

theorem drainGo_spec (slots : List ControlSlot) (write capacity : ℕ)
    (hw : write < capacity) :
    ∀ (fuel read : ℕ) (st : EngineState), read < capacity →
      pendingCount read write capacity ≤ fuel →
      drainGo slots write capacity fuel read st
        = (applyCmdList st
             (sliceFrom slots capacity read (pendingCount read write capacity)),
           (read + pendingCount read write capacity) % capacity) := by
  intro fuel
  induction fuel with
  | zero =>
      intro read st hr hp
      have hzero : pendingCount read write capacity = 0 := Nat.le_zero.mp hp
      have hrw : read = write := by
        unfold pendingCount at hzero
        split_ifs at hzero <;> omega
      simp only [drainGo, hzero, sliceFrom, List.range_zero, List.map_nil,
        applyCmdList, List.foldl_nil, Nat.add_zero, Nat.mod_eq_of_lt hr]
  | succ n ih =>
      intro read st hr hp
      by_cases hne : read = write
      · have hzero : pendingCount read write capacity = 0 := by
          unfold pendingCount
          split_ifs <;> omega
        simp only [drainGo, if_pos hne, hzero, sliceFrom, List.range_zero,
          List.map_nil, applyCmdList, List.foldl_nil, Nat.add_zero,
          Nat.mod_eq_of_lt hr]
      · obtain ⟨hstep, hpos⟩ := pendingCount_step read write capacity hr hw hne
        have hcap0 : 0 < capacity := Nat.pos_of_ne_zero (by omega)
        have hr1 : (read + 1) % capacity < capacity := Nat.mod_lt _ hcap0
        obtain ⟨m, hm⟩ : ∃ m, pendingCount read write capacity = m + 1 :=
          ⟨pendingCount read write capacity - 1, by omega⟩
        have hstep1 : pendingCount ((read + 1) % capacity) write capacity = m := by
          omega
        have hp1 : pendingCount ((read + 1) % capacity) write capacity ≤ n := by
          omega
        simp only [drainGo, if_neg hne]
        rw [ih _ _ hr1 hp1, hstep1, hm, sliceFrom_succ slots capacity read m hr]
        have hidx : ((read + 1) % capacity + m) % capacity
            = (read + (m + 1)) % capacity := by
          rw [Nat.mod_add_mod]
          have harg : read + 1 + m = read + (m + 1) := by omega
          rw [harg]
        rw [hidx]
        rfl

theorem drain_spec (st : EngineState) (ring : ControlRing)
    (hr : ring.read < max ring.capacity 1)
    (hw : ring.write < max ring.capacity 1) :
    drain_control_commands st ring
      = (applyCmdList st
           (ringSlice ring
             (pendingCount ring.read ring.write (max ring.capacity 1))),
         (ring.read + pendingCount ring.read ring.write (max ring.capacity 1))
           % max ring.capacity 1) ∧
    pendingCount ring.read ring.write (max ring.capacity 1)
      < max ring.capacity 1 := by
  have hlt : pendingCount ring.read ring.write (max ring.capacity 1)
      < max ring.capacity 1 := by
    unfold pendingCount
    split_ifs <;> omega
  refine ⟨?_, hlt⟩
  unfold drain_control_commands ringSlice
  by_cases heq : ring.read = ring.write
  · rw [if_pos heq]
    have hzero : pendingCount ring.read ring.write (max ring.capacity 1) = 0 := by
      unfold pendingCount
      split_ifs <;> omega
    simp only [hzero, sliceFrom, List.range_zero, List.map_nil, applyCmdList,
      List.foldl_nil, Nat.add_zero, Nat.mod_eq_of_lt hr]
  · rw [if_neg heq]
    exact drainGo_spec ring.slots ring.write (max ring.capacity 1) hw
      (max ring.capacity 1) ring.read st hr (le_of_lt hlt)

/-- C6 (confirmed): a single drain processes exactly the pending commands
(fewer than the capacity, so at most `C`), applying them in slot order from
the read index up to the write index, and stores back
`(read + processed) mod C`; consequently the burst
`PLAY, VOLUME(0.3), PAUSE, STOP` leaves `is_playing = false`,
`is_paused = false`, `position = 0` (file mode) and `volume = 0.3`. -/
theorem C6_control_ring (st : EngineState) (ring : ControlRing)
    (hr : ring.read < max ring.capacity 1)
    (hw : ring.write < max ring.capacity 1) :
    (pendingCount ring.read ring.write (max ring.capacity 1)
        < max ring.capacity 1 ∧
     drain_control_commands st ring
       = (applyCmdList st
            (ringSlice ring
              (pendingCount ring.read ring.write (max ring.capacity 1))),
          (ring.read
             + pendingCount ring.read ring.write (max ring.capacity 1))
            % max ring.capacity 1)) ∧
    ((drain_control_commands burstState burstRing).1.is_playing = false ∧
     (drain_control_commands burstState burstRing).1.is_paused = false ∧
     (drain_control_commands burstState burstRing).1.position = 0 ∧
     (drain_control_commands burstState burstRing).1.volume = 3/10 ∧
     (drain_control_commands burstState burstRing).2 = 4) := by
  obtain ⟨heq, hlt⟩ := drain_spec st ring hr hw
  refine ⟨⟨hlt, heq⟩, ?_⟩
  have hburst := (drain_spec burstState burstRing (by decide) (by decide)).1
  have hstate : (drain_control_commands burstState burstRing).1
      = { burstState with is_playing := false, is_paused := false,
                          position := 0, volume := clampQ (3/10) 0 1 } := by
    rw [hburst]
    rfl
  have hread : (drain_control_commands burstState burstRing).2 = 4 := by
    rw [hburst]
    rfl
  refine ⟨?_, ?_, ?_, ?_, hread⟩
  · rw [hstate]
  · rw [hstate]
  · rw [hstate]
  · rw [hstate]
    show clampQ (3/10) 0 1 = 3/10
    norm_num [clampQ]

/-- C6 witness: the theorem applied to the burst scenario. -/
theorem C6_control_ring_witness :
    (drain_control_commands burstState burstRing).1.volume = 3/10 ∧
    (drain_control_commands burstState burstRing).2 = 4 := by
  have h := C6_control_ring burstState burstRing (by decide) (by decide)
  exact ⟨h.2.2.2.2.1, h.2.2.2.2.2⟩

/-! ## C7 — dither determinism and seed advancement

The LCG `seed ↦ A·seed + 1 (mod 2^64)` with `A ≡ 5 (mod 8)` has full period
`2^64` (Hull–Dobell), and each dither variant draws exactly two uniforms per
sample.  Hence the seed moves after any run whose double sample count is not
a multiple of `2^64` — which holds for every buffer the program can pass,
since a Rust `&[f32]` slice carries fewer than `2^61` samples. -/

theorem tpdf_go_seed (lsb : ℚ) (l : List ℚ) :
    ∀ seed : ℕ, (tpdf_go lsb l seed).2 = lcg_step^[2 * l.length] seed := by
  induction l with
  | nil => intro seed; simp [tpdf_go]
  | cons x rest ih =>
      intro seed
      simp only [tpdf_go]
      rw [ih]
      have h2 : 2 * (x :: rest).length = 2 * rest.length + 2 := by
        rw [List.length_cons]
        ring
      rw [h2, Function.iterate_add_apply]
      rfl

theorem apply_tpdf_dither_seed (samples : List ℚ) (bits seed : ℕ) :
    (apply_tpdf_dither samples bits seed).2
      = lcg_step^[2 * samples.length] seed := by
  simp only [apply_tpdf_dither]
  exact tpdf_go_seed _ samples seed

theorem tpdf_shaped_go_seed (lsb : ℚ) (cc order : ℕ) (l : List ℚ) :
    ∀ (idx seed : ℕ) (e1 e2 : ℕ → ℚ),
      (tpdf_shaped_go lsb cc order l idx seed e1 e2).2.1
        = lcg_step^[2 * l.length] seed := by
  induction l with
  | nil => intro idx seed e1 e2; simp [tpdf_shaped_go]
  | cons x rest ih =>
      intro idx seed e1 e2
      simp only [tpdf_shaped_go]
      rw [ih]
      have h2 : 2 * (x :: rest).length = 2 * rest.length + 2 := by
        rw [List.length_cons]
        ring
      rw [h2, Function.iterate_add_apply]
      rfl

theorem apply_tpdf_dither_shaped_seed (samples : List ℚ)
    (bits channels seed : ℕ) (e1 e2 : ℕ → ℚ) (order : ℕ) :
    (apply_tpdf_dither_shaped samples bits channels seed e1 e2 order).2.1
      = lcg_step^[2 * samples.length] seed := by
  simp only [apply_tpdf_dither_shaped]
  split
  · exact apply_tpdf_dither_seed samples _ seed
  · exact tpdf_shaped_go_seed _ _ _ samples 0 seed e1 e2

theorem lcg_iterate_closed (k : ℕ) :
    ∀ seed : ℕ, seed < U64 →
      lcg_step^[k] seed = (LCG_A ^ k * seed + lcgC k) % U64 := by
  induction k with
  | zero =>
      intro seed hs
      simp [lcgC, Nat.mod_eq_of_lt hs]
  | succ n ih =>
      intro seed hs
      rw [Function.iterate_succ_apply', ih seed hs]
      have h1 : (LCG_A * ((LCG_A ^ n * seed + lcgC n) % U64) + 1)
          ≡ LCG_A * (LCG_A ^ n * seed + lcgC n) + 1 [MOD U64] :=
        ((Nat.mod_modEq _ _).mul_left _).add_right 1
      calc lcg_step ((LCG_A ^ n * seed + lcgC n) % U64)
          = (LCG_A * ((LCG_A ^ n * seed + lcgC n) % U64) + 1) % U64 := rfl
        _ = (LCG_A * (LCG_A ^ n * seed + lcgC n) + 1) % U64 := h1
        _ = (LCG_A ^ (n + 1) * seed + lcgC (n + 1)) % U64 := by
            have h2 : LCG_A * (LCG_A ^ n * seed + lcgC n) + 1
                = LCG_A ^ (n + 1) * seed + (LCG_A * lcgC n + 1) := by ring
            rw [h2]
            rfl

theorem lcgC_geom (k : ℕ) : LCG_A ^ k = 4 * LCG_M1 * lcgC k + 1 := by
  have hA : LCG_A = 4 * LCG_M1 + 1 := by norm_num [LCG_A, LCG_M1]
  induction k with
  | zero => simp [lcgC]
  | succ n ih =>
      calc LCG_A ^ (n + 1) = LCG_A * LCG_A ^ n := by ring
        _ = (4 * LCG_M1 + 1) * (4 * LCG_M1 * lcgC n + 1) := by rw [← hA, ih]
        _ = 4 * LCG_M1 * ((4 * LCG_M1 + 1) * lcgC n + 1) + 1 := by ring
        _ = 4 * LCG_M1 * lcgC (n + 1) + 1 := by rw [← hA]; rfl

theorem odd_LCG_M1 : Odd LCG_M1 := by
  rw [Nat.odd_iff]
  rfl

theorem LCG_A_sq : LCG_A ^ 2 = 1 + 8 * (LCG_M1 + 2 * LCG_M1 ^ 2) := by
  norm_num [LCG_A, LCG_M1]

theorem A_pow_odd (m : ℕ) (hm : Odd m) :
    ∃ u : ℕ, Odd u ∧ LCG_A ^ m = 1 + 4 * u := by
  obtain ⟨j, rfl⟩ := hm
  induction j with
  | zero =>
      refine ⟨LCG_M1, odd_LCG_M1, ?_⟩
      norm_num [LCG_A, LCG_M1]
  | succ n ih =>
      obtain ⟨u, hu, hequ⟩ := ih
      refine ⟨u + (2 * (LCG_M1 + 2 * LCG_M1 ^ 2)
                + 8 * (u * (LCG_M1 + 2 * LCG_M1 ^ 2))), ?_, ?_⟩
      · exact hu.add_even
          ⟨LCG_M1 + 2 * LCG_M1 ^ 2 + 4 * (u * (LCG_M1 + 2 * LCG_M1 ^ 2)),
           by ring⟩
      · have h1 : 2 * (n + 1) + 1 = (2 * n + 1) + 2 := by ring
        rw [h1, pow_add, hequ, LCG_A_sq]
        ring

theorem A_pow_two_pow (e : ℕ) : ∀ m : ℕ, Odd m →
    ∃ u : ℕ, Odd u ∧ LCG_A ^ (2 ^ e * m) = 1 + 2 ^ (e + 2) * u := by
  induction e with
  | zero =>
      intro m hm
      obtain ⟨u, hu, hequ⟩ := A_pow_odd m hm
      refine ⟨u, hu, ?_⟩
      rw [pow_zero, one_mul, hequ]
      norm_num
  | succ n ih =>
      intro m hm
      obtain ⟨u, hu, hequ⟩ := ih m hm
      refine ⟨u + 2 ^ (n + 1) * u ^ 2, ?_, ?_⟩
      · exact hu.add_even ⟨2 ^ n * u ^ 2, by ring⟩
      · have h1 : 2 ^ (n + 1) * m = 2 ^ n * m * 2 := by ring
        rw [h1, pow_mul, hequ]
        ring

theorem lcgC_val (k e m : ℕ) (hm : Odd m) (hk : k = 2 ^ e * m) :
    ∃ t : ℕ, Odd t ∧ lcgC k = 2 ^ e * t := by
  obtain ⟨u, hu, hequ⟩ := A_pow_two_pow e m hm
  have h1 : 4 * LCG_M1 * lcgC k = 2 ^ (e + 2) * u := by
    have h0 : 4 * LCG_M1 * lcgC k + 1 = 2 ^ (e + 2) * u + 1 := by
      rw [← lcgC_geom k, hk, hequ]
      ring
    exact Nat.add_right_cancel h0
  have h2 : LCG_M1 * lcgC k = 2 ^ e * u := by
    have h3 : 4 * (LCG_M1 * lcgC k) = 4 * (2 ^ e * u) := by
      calc 4 * (LCG_M1 * lcgC k) = 4 * LCG_M1 * lcgC k := by ring
        _ = 2 ^ (e + 2) * u := h1
        _ = 4 * (2 ^ e * u) := by ring
    exact Nat.eq_of_mul_eq_mul_left (by norm_num) h3
  have hM1pos : 0 < LCG_M1 := by norm_num [LCG_M1]
  have hcop : Nat.Coprime LCG_M1 (2 ^ e) :=
    Nat.Coprime.pow_right e (Nat.coprime_two_right.mpr odd_LCG_M1)
  have hdvd : LCG_M1 ∣ u := hcop.dvd_of_dvd_mul_left ⟨lcgC k, h2.symm⟩
  obtain ⟨t, ht⟩ := hdvd
  refine ⟨t, ?_, ?_⟩
  · rw [ht, Nat.odd_mul] at hu
    exact hu.2
  · refine Nat.eq_of_mul_eq_mul_left hM1pos ?_
    rw [h2, ht]
    ring

theorem lcg_iterate_ne (seed k : ℕ) (hs : seed < U64) (hk : 0 < k)
    (hnd : ¬ 2 ^ 64 ∣ k) : lcg_step^[k] seed ≠ seed := by
  intro hfix
  rw [lcg_iterate_closed k seed hs] at hfix
  obtain ⟨e, m, hm, hkem⟩ := Nat.exists_eq_two_pow_mul_odd hk.ne'
  have he : e < 64 := by
    by_contra hge
    push_neg at hge
    exact hnd (dvd_trans (pow_dvd_pow 2 hge) ⟨m, hkem⟩)
  obtain ⟨u, hu, hequ⟩ := A_pow_two_pow e m hm
  obtain ⟨t, ht, hct⟩ := lcgC_val k e m hm hkem
  have hak : LCG_A ^ k = 1 + 2 ^ (e + 2) * u := by
    rw [hkem]
    exact hequ
  have hsum : LCG_A ^ k * seed + lcgC k
      = seed + 2 ^ e * (4 * (u * seed) + t) := by
    rw [hak, hct]
    ring
  have hdvd : U64 ∣ (LCG_A ^ k * seed + lcgC k) - seed := by
    have hle : seed ≤ LCG_A ^ k * seed + lcgC k := by
      rw [hsum]
      omega
    refine (Nat.modEq_iff_dvd' hle).mp ?_
    show seed % U64 = (LCG_A ^ k * seed + lcgC k) % U64
    rw [Nat.mod_eq_of_lt hs, hfix]
  rw [hsum, Nat.add_sub_cancel_left] at hdvd
  have hodd : Odd (4 * (u * seed) + t) :=
    Even.add_odd ⟨2 * (u * seed), by ring⟩ ht
  have h2dvd : 2 ∣ 4 * (u * seed) + t := by
    have ha : (2 : ℕ) ^ (e + 1) ∣ 2 ^ 64 := pow_dvd_pow 2 (by omega)
    have hb : (2 : ℕ) ^ (e + 1) ∣ 2 ^ e * (4 * (u * seed) + t) :=
      dvd_trans ha hdvd
    rw [pow_succ] at hb
    exact (Nat.mul_dvd_mul_iff_left (pow_pos two_pos e)).mp hb
  rw [Nat.odd_iff] at hodd
  omega

/-- Why a domain bound appears in the C7 theorem below: the LCG does have
full period `2^64`, so in the unbounded list model an input of exactly
`2^63` samples (two draws each) would return the seed to its start.  The
dither functions take a Rust `&mut [f32]`, and a slice is limited to
`isize::MAX` bytes, i.e. fewer than `2^61` f32 samples — far below `2^63` —
so every input the program can receive satisfies the bound. -/
theorem lcg_iterate_full_period : lcg_step^[2 ^ 64] 0 = 0 := by
  obtain ⟨t, ht, hct⟩ := lcgC_val (2 ^ 64) 64 1 odd_one (by norm_num)
  rw [lcg_iterate_closed (2 ^ 64) 0 (by norm_num [U64]), Nat.mul_zero,
    Nat.zero_add, hct]
  simp [U64, Nat.mul_mod_right]

/-- C7 (confirmed): each dither variant is a pure function of
(samples, bits, channels, seed, error history) — equal inputs give equal
outputs and equal final seeds; and every run on a non-empty input moves the
seed.  The hypotheses `samples.length < 2^61` and `seed < 2^64` encode the
input domain of the Rust code: a `&[f32]` slice holds at most
`isize::MAX / 4 < 2^61` samples and the seed is a `u64`.  Within that
domain `2·len` is never a multiple of `2^64`, so the full-period LCG cannot
return to its starting seed. -/
theorem C7_dither_deterministic_and_moves_seed :
    (∀ (s1 s2 : List ℚ) (b1 b2 k1 k2 : ℕ), s1 = s2 → b1 = b2 → k1 = k2 →
        apply_tpdf_dither s1 b1 k1 = apply_tpdf_dither s2 b2 k2) ∧
    (∀ (s1 s2 : List ℚ) (b1 b2 c1 c2 k1 k2 : ℕ) (e1 e2 f1 f2 : ℕ → ℚ)
        (o1 o2 : ℕ), s1 = s2 → b1 = b2 → c1 = c2 → k1 = k2 → e1 = f1 →
        e2 = f2 → o1 = o2 →
        apply_tpdf_dither_shaped s1 b1 c1 k1 e1 e2 o1
          = apply_tpdf_dither_shaped s2 b2 c2 k2 f1 f2 o2) ∧
    (∀ (samples : List ℚ) (bits seed : ℕ), samples ≠ [] →
        samples.length < 2 ^ 61 → seed < U64 →
        (apply_tpdf_dither samples bits seed).2 ≠ seed) ∧
    (∀ (samples : List ℚ) (bits channels seed : ℕ) (e1 e2 : ℕ → ℚ)
        (order : ℕ), samples ≠ [] → samples.length < 2 ^ 61 → seed < U64 →
        (apply_tpdf_dither_shaped samples bits channels seed e1 e2 order).2.1
          ≠ seed) := by
  have hmove : ∀ (samples : List ℚ) (seed : ℕ), samples ≠ [] →
      samples.length < 2 ^ 61 → seed < U64 →
      lcg_step^[2 * samples.length] seed ≠ seed := by
    intro samples seed hne hlen hs
    refine lcg_iterate_ne seed _ hs ?_ ?_
    · have := List.length_pos.mpr hne
      omega
    · intro hdvd
      obtain ⟨c, hc⟩ := hdvd
      have hpos := List.length_pos.mpr hne
      have h64 : (2 : ℕ) ^ 64 = 18446744073709551616 := by norm_num
      have h61 : (2 : ℕ) ^ 61 = 2305843009213693952 := by norm_num
      rw [h64] at hc
      rw [h61] at hlen
      omega
  refine ⟨?_, ?_, ?_, ?_⟩
  · intro s1 s2 b1 b2 k1 k2 h1 h2 h3
    rw [h1, h2, h3]
  · intro s1 s2 b1 b2 c1 c2 k1 k2 e1 e2 f1 f2 o1 o2 h1 h2 h3 h4 h5 h6 h7
    rw [h1, h2, h3, h4, h5, h6, h7]
  · intro samples bits seed hne hlen hs
    rw [apply_tpdf_dither_seed]
    exact hmove samples seed hne hlen hs
  · intro samples bits channels seed e1 e2 order hne hlen hs
    rw [apply_tpdf_dither_shaped_seed]
    exact hmove samples seed hne hlen hs

/-- C7 witness: the theorem applied to a one-sample input with seed 0 for the
plain and the shaped variants. -/
theorem C7_dither_witness :
    (apply_tpdf_dither [(1/2 : ℚ)] 16 0).2 ≠ 0 ∧
    (apply_tpdf_dither_shaped [(1/2 : ℚ)] 16 2 0 (fun _ => 0) (fun _ => 0) 1).2.1
      ≠ 0 := by
  constructor
  · exact C7_dither_deterministic_and_moves_seed.2.2.1 [(1/2 : ℚ)] 16 0
      (by simp) (by norm_num) (by norm_num [U64])
  · exact C7_dither_deterministic_and_moves_seed.2.2.2 [(1/2 : ℚ)] 16 2 0
      (fun _ => 0) (fun _ => 0) 1 (by simp) (by norm_num) (by norm_num [U64])

end NTMusic
